import Mathlib

/-!
Verification of the synaptic trading-signal service core.

Prices are modelled as rationals (ℚ); Python `int` periods as ℤ; the
price deque (`collections.deque(maxlen=...)`) as a `List ℚ` in
chronological order (oldest first); a raised `ValueError` as
`Except.error`.  All definitions are transcribed from
`src/indicators.py`, `src/models.py` and `src/main.py`.
-/

namespace Synaptic

/-- Error message raised by `calculate_sma` / `calculate_rsi` for a
non-positive period (`indicators.py`). -/
def periodErrMsg : String := "period must be > 0"

/-- Trend value strings used by `determine_trend_and_decision`. -/
def UP : String := "UP"

/-- Trend value: downtrend. -/
def DOWN : String := "DOWN"

/-- Trend value: flat market. -/
def FLAT : String := "FLAT"

/-- Decision value: buy. -/
def BUY : String := "BUY"

/-- Decision value: sell. -/
def SELL : String := "SELL"

/-- Decision value: hold. -/
def HOLD : String := "HOLD"

/-- Model of `deque.append` on a deque with `maxlen = capacity`
(`models.py`, `SymbolState.prices`): when the deque is full the oldest
(leftmost) element is discarded before the new one is appended. -/
def push (capacity : ℕ) (w : List ℚ) (x : ℚ) : List ℚ :=
  if w.length = capacity then w.tail ++ [x] else w ++ [x]

/-- Push a whole chronological sequence of prices into an initially
empty rolling window of the given capacity. -/
def pushAll (capacity : ℕ) (ps : List ℚ) : List ℚ :=
  ps.foldl (push capacity) []

/-- Model of `prices[-1]` (the most recent price); the default `0` is
never used at call sites, which guard against the empty deque. -/
def lastPrice (prices : List ℚ) : ℚ :=
  prices.getLast?.getD 0

/-- Body of `calculate_sma` (`indicators.py` lines 34-47) after the
period precondition: `0.0` on an empty deque, the last price when there
are fewer than `period` prices, otherwise the mean of the last `period`
prices (the source sums exactly the elements with index ≥ n - period). -/
def smaVal (prices : List ℚ) (period : ℤ) : ℚ :=
  if prices.length = 0 then 0
  else if (prices.length : ℤ) < period then lastPrice prices
  else (prices.drop (prices.length - period.toNat)).sum / (period : ℚ)

/-- Transcription of `calculate_sma` (`indicators.py` lines 19-47):
raises `ValueError` for `period ≤ 0`, otherwise returns `smaVal`. -/
def calculate_sma (prices : List ℚ) (period : ℤ) : Except String ℚ :=
  if period ≤ 0 then Except.error periodErrMsg else Except.ok (smaVal prices period)

/-- Deltas between consecutive closes (`indicators.py` line 73):
`deltas[i] = closes[i+1] - closes[i]`. -/
def deltasOf (closes : List ℚ) : List ℚ :=
  List.zipWith (fun a b => a - b) closes.tail closes

/-- One step of Wilder smoothing (`indicators.py` lines 82-86): the pair
is `(avg_gain, avg_loss)` and `d` the next delta. -/
def wilderUpdate (period : ℤ) (acc : ℚ × ℚ) (d : ℚ) : ℚ × ℚ :=
  ((acc.1 * ((period : ℚ) - 1) + max d 0) / (period : ℚ),
   (acc.2 * ((period : ℚ) - 1) + max (-d) 0) / (period : ℚ))

/-- Body of `calculate_rsi` (`indicators.py` lines 67-105) after the
period precondition: neutral `50` on insufficient data, otherwise seed
the averages from the first `period` deltas, Wilder-smooth the rest,
convert to RSI and clip to `[0, 100]` with the source's if/elif chain. -/
def rsiVal (prices : List ℚ) (period : ℤ) : ℚ :=
  if (prices.length : ℤ) < period + 1 then 50
  else
    let ds := deltasOf prices
    let gains := (ds.take period.toNat).map (fun d => max d 0)
    let losses := (ds.take period.toNat).map (fun d => max (-d) 0)
    let seed : ℚ × ℚ := (gains.sum / (period : ℚ), losses.sum / (period : ℚ))
    let avgs := (ds.drop period.toNat).foldl (wilderUpdate period) seed
    let rsi :=
      if avgs.2 = 0 then (if avgs.1 = 0 then 50 else 100)
      else if avgs.1 = 0 then 0
      else 100 - 100 / (1 + avgs.1 / avgs.2)
    if rsi < 0 then 0 else if 100 < rsi then 100 else rsi

/-- Transcription of `calculate_rsi` (`indicators.py` lines 50-105):
raises `ValueError` for `period ≤ 0`, otherwise returns `rsiVal`. -/
def calculate_rsi (prices : List ℚ) (period : ℤ) : Except String ℚ :=
  if period ≤ 0 then Except.error periodErrMsg else Except.ok (rsiVal prices period)

/-- Transcription of `determine_trend_and_decision` (`indicators.py`
lines 108-132).  The periods 14/20/50 are positive literals, so the
`ValueError` branches of the indicator functions are unreachable and the
bodies `rsiVal` / `smaVal` are used directly (see
`calculate_rsi_pos` / `calculate_sma_pos` below). -/
def determine_trend_and_decision (prices : List ℚ) : String × String × ℚ :=
  let rsi_val := rsiVal prices 14
  let ma_short := smaVal prices 20
  let ma_long := smaVal prices 50
  if ma_long < ma_short then
    (UP, if rsi_val < 30 then BUY else HOLD, rsi_val)
  else if ma_short < ma_long then
    (DOWN, if 70 < rsi_val then SELL else HOLD, rsi_val)
  else
    (FLAT, HOLD, rsi_val)

/-- Decision rule table, written from the specification's table in
§4.2 (`decide(window)`), for comparison with the implementation. -/
def ruleTable (sma20 sma50 rsi : ℚ) : String × String :=
  if sma20 > sma50 then (UP, if rsi < 30 then BUY else HOLD)
  else if sma20 < sma50 then (DOWN, if rsi > 70 then SELL else HOLD)
  else (FLAT, HOLD)

/-- Reference Wilder RSI computation, written from the specification's
words in §4.2: deltas over the full window contents, seed averages as
simple means over the first `period` deltas, Wilder recurrence on each
remaining delta in chronological order, then the final-value rule
(50 when both averages are zero, 100 when only the loss average is zero
and the gain average is positive, 0 when the gain average is zero,
otherwise `100 - 100/(1 + avg_gain/avg_loss)`), clamped to `[0,100]`. -/
def rsiSpec (prices : List ℚ) (period : ℤ) : ℚ :=
  let ds := (prices.tail.zip prices).map (fun p => p.1 - p.2)
  let avgGain0 := ((ds.take period.toNat).map (fun d => max d 0)).sum / (period : ℚ)
  let avgLoss0 := ((ds.take period.toNat).map (fun d => max (-d) 0)).sum / (period : ℚ)
  let final := (ds.drop period.toNat).foldl
    (fun acc d =>
      ((acc.1 * ((period : ℚ) - 1) + max d 0) / (period : ℚ),
       (acc.2 * ((period : ℚ) - 1) + max (-d) 0) / (period : ℚ)))
    (avgGain0, avgLoss0)
  let raw :=
    if final.2 = 0 ∧ final.1 = 0 then 50
    else if final.2 = 0 ∧ 0 < final.1 then 100
    else if final.1 = 0 then 0
    else 100 - 100 / (1 + final.1 / final.2)
  max 0 (min 100 raw)

/-- Model of Python `str.upper()` as used in `main.py` on symbol names
(character-wise upper-casing). -/
def upper (s : String) : String :=
  String.mk (s.data.map Char.toUpper)

/-- Incoming stream tick (`models.py`, `Tick`). -/
structure Tick where
  symbol : String
  ts : ℚ
  price : ℚ
deriving Repr, DecidableEq

/-- Rolling per-symbol state (`models.py`, `SymbolState`). -/
structure SymbolState where
  prices : List ℚ
  latest_trend : String
  latest_decision : String
  latest_rsi : ℚ
deriving Repr, DecidableEq

/-- Capacity of the rolling price window (`models.py`, `max_size=200`). -/
def maxSize : ℕ := 200

/-- Freshly constructed `SymbolState()` (`models.py` lines 16-21). -/
def SymbolState.init : SymbolState :=
  { prices := [], latest_trend := FLAT, latest_decision := HOLD, latest_rsi := 50 }

/-- Transcription of `SymbolState.add_price` (`models.py` lines 23-24). -/
def SymbolState.add_price (s : SymbolState) (p : ℚ) : SymbolState :=
  { s with prices := push maxSize s.prices p }

/-- One update transaction from the consumer body (`main.py` lines
33-40): push the price, recompute the indicators, publish the triple. -/
def updateState (s : SymbolState) (p : ℚ) : SymbolState :=
  let s1 := s.add_price p
  let tdr := determine_trend_and_decision s1.prices
  { prices := s1.prices, latest_trend := tdr.1,
    latest_decision := tdr.2.1, latest_rsi := tdr.2.2 }

/-- The fixed tracked-symbol registry (`main.py` line 14). -/
def SYMBOLS_TO_TRACK : List String := ["XYZ", "ABC", "DEF"]

/-- `GLOBAL_STATE` right after startup (`main.py` lines 16-17), as an
association list from symbol to state. -/
def initialState : List (String × SymbolState) :=
  SYMBOLS_TO_TRACK.map (fun s => (s, SymbolState.init))

/-- `GLOBAL_STATE.get(sym)` on the association-list model. -/
def lookupState (store : List (String × SymbolState)) (sym : String) :
    Option SymbolState :=
  List.lookup sym store

/-- One iteration of `price_consumer_task` for one tick (`main.py`
lines 31-40): untracked symbols are dropped, a tracked symbol's state
is replaced by the updated one (in-place mutation modelled as a map). -/
def price_consumer_step (store : List (String × SymbolState)) (t : Tick) :
    List (String × SymbolState) :=
  match lookupState store t.symbol with
  | none => store
  | some _ =>
      store.map (fun e => if e.1 = t.symbol then (e.1, updateState e.2 t.price) else e)

/-- Response of `GET /signal` (`models.py`, `SignalResponse`). -/
structure SignalResponse where
  symbol : String
  trend : String
  rsi : ℚ
  decision : String
deriving Repr, DecidableEq

/-- Transcription of `get_signal` (`main.py` lines 59-75): look the
upper-cased symbol up, 404 when untracked, otherwise the precomputed
signal from the state. -/
def get_signal (store : List (String × SymbolState)) (symbol : String) :
    Except ℕ SignalResponse :=
  match lookupState store (upper symbol) with
  | none => Except.error 404
  | some st =>
      Except.ok { symbol := upper symbol, trend := st.latest_trend,
                  rsi := st.latest_rsi, decision := st.latest_decision }

/-- The JSON payload sent by the websocket endpoint (`main.py` lines
98-101 and 107): only the symbol and the decision are serialized. -/
def wsPayload (symbol : String) (decision : String) : List (String × String) :=
  [(("symbol"), upper symbol), (("decision"), decision)]

/-- Polling loop of `websocket_endpoint` (`main.py` lines 102-111) over
the sequence of decisions it samples from the state, carrying the last
sent decision: a sampled decision is sent iff it differs from the last
sent one. -/
def wsLoop (last : String) : List String → List String
  | [] => []
  | c :: rest => if c ≠ last then c :: wsLoop c rest else wsLoop last rest

/-- Decisions sent over the websocket (`main.py` lines 96-111): the
initial snapshot `d0` is sent immediately on connect, then the polling
loop runs over the sampled decisions. -/
def wsEmittedDecisions (d0 : String) (samples : List String) : List String :=
  d0 :: wsLoop d0 samples

/-! Helper lemmas. -/

/-- For a positive period the `ValueError` branch of `calculate_sma` is
not taken. -/
lemma calculate_sma_pos (prices : List ℚ) (period : ℤ) (hp : 0 < period) :
    calculate_sma prices period = Except.ok (smaVal prices period) := by
  simp [calculate_sma, not_le.mpr hp]

/-- For a positive period the `ValueError` branch of `calculate_rsi` is
not taken. -/
lemma calculate_rsi_pos (prices : List ℚ) (period : ℤ) (hp : 0 < period) :
    calculate_rsi prices period = Except.ok (rsiVal prices period) := by
  simp [calculate_rsi, not_le.mpr hp]

/-- zipWith as a map over the zipped pairs. -/
lemma zipWith_eq_map_zip (f : ℚ → ℚ → ℚ) :
    ∀ l₁ l₂ : List ℚ, List.zipWith f l₁ l₂ = (l₁.zip l₂).map (fun p => f p.1 p.2) := by
  intro l₁
  induction l₁ with
  | nil => intro l₂; simp
  | cons a t ih =>
    intro l₂
    cases l₂ with
    | nil => simp
    | cons b t₂ => simp [List.zip_cons_cons, ih]

/-- The source's if-chain clamp equals the clamp written as `max`/`min`. -/
lemma ifClamp_eq_max_min (r : ℚ) :
    (if r < 0 then (0:ℚ) else if 100 < r then 100 else r) = max 0 (min 100 r) := by
  split_ifs with h1 h2
  · rw [min_eq_right (by linarith), max_eq_left (by linarith)]
  · rw [min_eq_left (by linarith)]
    norm_num
  · rw [min_eq_right (le_of_not_lt h2), max_eq_right (le_of_not_lt h1)]

/-- Wilder smoothing preserves the non-negativity of both averages. -/
lemma wilder_foldl_nonneg (period : ℤ) (hp : 0 < period) :
    ∀ (ds : List ℚ) (acc : ℚ × ℚ), 0 ≤ acc.1 → 0 ≤ acc.2 →
      0 ≤ (ds.foldl (wilderUpdate period) acc).1
      ∧ 0 ≤ (ds.foldl (wilderUpdate period) acc).2 := by
  have hp1 : (1:ℚ) ≤ (period : ℚ) := by exact_mod_cast hp
  intro ds
  induction ds with
  | nil => intro acc h1 h2; exact ⟨h1, h2⟩
  | cons d t ih =>
    intro acc h1 h2
    simp only [List.foldl_cons]
    apply ih
    · exact div_nonneg
        (add_nonneg (mul_nonneg h1 (by linarith)) (le_max_right d 0)) (by linarith)
    · exact div_nonneg
        (add_nonneg (mul_nonneg h2 (by linarith)) (le_max_right (-d) 0)) (by linarith)

/-- Wilder smoothing maps a sequence of zero deltas starting from zero
averages to zero averages. -/
lemma wilder_foldl_zero (period : ℤ) :
    ∀ ds : List ℚ, (∀ d ∈ ds, d = 0) →
      ds.foldl (wilderUpdate period) (0, 0) = (0, 0) := by
  intro ds
  induction ds with
  | nil => intro _; rfl
  | cons d t ih =>
    intro h
    have hd : d = 0 := h d (List.mem_cons_self d t)
    have ht : ∀ x ∈ t, x = 0 := fun x hx => h x (List.mem_cons_of_mem d hx)
    simp only [List.foldl_cons, hd]
    have : wilderUpdate period (0, 0) 0 = (0, 0) := by
      simp [wilderUpdate]
    rw [this]
    exact ih ht

/-- Wilder smoothing over strictly positive deltas keeps the gain
average positive and the loss average at zero. -/
lemma wilder_foldl_pos (period : ℤ) (hp : 0 < period) :
    ∀ (ds : List ℚ) (g : ℚ), (∀ d ∈ ds, 0 < d) → 0 < g →
      0 < (ds.foldl (wilderUpdate period) (g, 0)).1
      ∧ (ds.foldl (wilderUpdate period) (g, 0)).2 = 0 := by
  have hp1 : (1:ℚ) ≤ (period : ℚ) := by exact_mod_cast hp
  intro ds
  induction ds with
  | nil => intro g _ hg; exact ⟨hg, rfl⟩
  | cons d t ih =>
    intro g h hg
    have hd : 0 < d := h d (List.mem_cons_self d t)
    have ht : ∀ x ∈ t, 0 < x := fun x hx => h x (List.mem_cons_of_mem d hx)
    simp only [List.foldl_cons]
    have hupd : wilderUpdate period (g, 0) d =
        ((g * ((period : ℚ) - 1) + d) / (period : ℚ), 0) := by
      simp [wilderUpdate, max_eq_left hd.le, max_eq_right (by linarith : -d ≤ 0)]
    rw [hupd]
    exact ih _ ht
      (div_pos (add_pos_of_nonneg_of_pos (mul_nonneg hg.le (by linarith)) hd)
        (by linarith))

/-- Consecutive deltas of a strictly increasing series are positive. -/
lemma deltasOf_pos :
    ∀ l : List ℚ, l.Chain' (· < ·) → ∀ d ∈ deltasOf l, 0 < d := by
  intro l
  induction l with
  | nil => intro _ d hd; simp [deltasOf] at hd
  | cons a t ih =>
    intro hc d hd
    cases t with
    | nil => simp [deltasOf] at hd
    | cons b t' =>
      rw [List.chain'_cons] at hc
      have hstep : deltasOf (a :: b :: t') = (b - a) :: deltasOf (b :: t') := by
        simp [deltasOf]
      rw [hstep] at hd
      rcases List.mem_cons.mp hd with h | h
      · subst h; linarith [hc.1]
      · exact ih hc.2 d h

/-- Deltas of a constant series are all zero. -/
lemma zipWith_sub_replicate (c : ℚ) :
    ∀ m k : ℕ, List.zipWith (fun a b => a - b) (List.replicate m c) (List.replicate k c)
      = List.replicate (min m k) 0 := by
  intro m
  induction m with
  | zero => intro k; simp
  | succ m ih =>
    intro k
    cases k with
    | zero => simp
    | succ k =>
      simp only [List.replicate_succ, List.zipWith_cons_cons, ih]
      rw [Nat.succ_min_succ]
      simp [List.replicate_succ]

/-- Deltas of a constant series, packaged for `deltasOf`. -/
lemma deltasOf_replicate (n : ℕ) (c : ℚ) :
    deltasOf (List.replicate n c) = List.replicate (n - 1) 0 := by
  cases n with
  | zero => rfl
  | succ m =>
    have : (List.replicate (m + 1) c).tail = List.replicate m c := by
      simp [List.replicate_succ]
    rw [deltasOf, this, zipWith_sub_replicate]
    congr 1
    omega

/-- Evaluation of the rolling window: pushing a chronological sequence
into an empty window of positive capacity retains exactly the trailing
`capacity` elements, in order. -/
lemma pushAll_eq_drop (c : ℕ) (hc : 0 < c) (ps : List ℚ) :
    pushAll c ps = ps.drop (ps.length - c) := by
  induction ps using List.reverseRecOn with
  | nil => simp [pushAll]
  | append_singleton ps x ih =>
    have hfold : pushAll c (ps ++ [x]) = push c (pushAll c ps) x := by
      simp [pushAll, List.foldl_append]
    rw [hfold, ih, push]
    by_cases hcase : ps.length < c
    · have h1 : ps.length - c = 0 := by omega
      rw [h1, List.drop_zero]
      have hnc : ps.length ≠ c := by omega
      rw [if_neg hnc]
      have h2 : (ps ++ [x]).length - c = 0 := by
        rw [List.length_append, List.length_singleton]
        omega
      rw [h2, List.drop_zero]
    · have hge : c ≤ ps.length := le_of_not_lt hcase
      have hlen : (ps.drop (ps.length - c)).length = c := by
        simp only [List.length_drop]
        omega
      rw [if_pos hlen, List.tail_drop]
      have hle : (ps ++ [x]).length - c ≤ ps.length := by
        rw [List.length_append, List.length_singleton]
        omega
      rw [List.drop_append_of_le_length hle]
      have harg : (ps ++ [x]).length - c = ps.length - c + 1 := by
        rw [List.length_append, List.length_singleton]
        omega
      rw [harg]

/-- A lookup over an association list none of whose keys is the queried
key returns `none`. -/
lemma lookup_none (k : String) :
    ∀ store : List (String × SymbolState), (∀ e ∈ store, e.1 ≠ k) →
      List.lookup k store = none := by
  intro store
  induction store with
  | nil => intro _; rfl
  | cons e t ih =>
    intro h
    have he : e.1 ≠ k := h e (List.mem_cons_self e t)
    have hbeq : (k == e.1) = false := beq_eq_false_iff_ne.mpr (fun hk => he hk.symm)
    cases e with
    | mk a b =>
      rw [List.lookup_cons]
      simp only at hbeq
      rw [hbeq]
      exact ih (fun x hx => h x (List.mem_cons_of_mem _ hx))

/-- The websocket polling loop computes exactly the destuttered sampled
decision sequence. -/
lemma wsLoop_destutter :
    ∀ (samples : List String) (last : String),
      last :: wsLoop last samples = samples.destutter' (· ≠ ·) last := by
  intro samples
  induction samples with
  | nil => intro last; simp [wsLoop]
  | cons b rest ih =>
    intro last
    rw [List.destutter'_cons, wsLoop]
    by_cases h : last ≠ b
    · rw [if_pos h, if_pos (fun hb => h hb.symm), ← ih]
    · rw [if_neg h, if_neg (fun hb => h hb.symm), ← ih]

/-- Evaluation of `rsiVal` through the final averages: when there are
at least `period+1` prices and the Wilder fold evaluates to `A`, the
RSI is the source's conversion-and-clip chain applied to `A`. -/
lemma rsiVal_eq_of_data (prices : List ℚ) (period : ℤ)
    (hlen : ¬((prices.length : ℤ) < period + 1)) (A : ℚ × ℚ)
    (hA : ((deltasOf prices).drop period.toNat).foldl (wilderUpdate period)
      ((((deltasOf prices).take period.toNat).map (fun d => max d 0)).sum / (period : ℚ),
       (((deltasOf prices).take period.toNat).map (fun d => max (-d) 0)).sum / (period : ℚ)) = A) :
    rsiVal prices period =
      (if (if A.2 = 0 then (if A.1 = 0 then (50:ℚ) else 100)
          else if A.1 = 0 then 0 else 100 - 100 / (1 + A.1 / A.2)) < 0 then 0
       else if 100 < (if A.2 = 0 then (if A.1 = 0 then (50:ℚ) else 100)
          else if A.1 = 0 then 0 else 100 - 100 / (1 + A.1 / A.2)) then 100
       else (if A.2 = 0 then (if A.1 = 0 then (50:ℚ) else 100)
          else if A.1 = 0 then 0 else 100 - 100 / (1 + A.1 / A.2))) := by
  subst hA
  unfold rsiVal
  rw [if_neg hlen]

/-! Claim theorems. -/

/-- C6: with period 14, a window shorter than 15 prices gives RSI 50, a
constant series of length at least 15 gives RSI 50, and a strictly
increasing series of length at least 15 gives RSI 100. -/
theorem rsi_neutral_cases :
    (∀ l : List ℚ, l.length < 15 → calculate_rsi l 14 = Except.ok 50)
    ∧ (∀ (n : ℕ) (x : ℚ), 15 ≤ n → calculate_rsi (List.replicate n x) 14 = Except.ok 50)
    ∧ (∀ l : List ℚ, 15 ≤ l.length → l.Chain' (· < ·) → calculate_rsi l 14 = Except.ok 100) := by
  refine ⟨?_, ?_, ?_⟩
  · intro l h
    have hval : rsiVal l 14 = 50 := by
      unfold rsiVal
      rw [if_pos (by omega)]
    rw [calculate_rsi_pos _ _ (by decide), hval]
  · intro n x hn
    have hlen' : ¬(((List.replicate n x).length : ℤ) < 14 + 1) := by
      rw [List.length_replicate]
      omega
    have hA : ((deltasOf (List.replicate n x)).drop (14:ℤ).toNat).foldl (wilderUpdate 14)
        ((((deltasOf (List.replicate n x)).take (14:ℤ).toNat).map (fun d => max d 0)).sum
            / ((14:ℤ) : ℚ),
         (((deltasOf (List.replicate n x)).take (14:ℤ).toNat).map (fun d => max (-d) 0)).sum
            / ((14:ℤ) : ℚ)) = ((0:ℚ), (0:ℚ)) := by
      rw [deltasOf_replicate]
      have h14 : (14:ℤ).toNat = 14 := rfl
      rw [h14, List.take_replicate, List.drop_replicate]
      have hmin : 14 ⊓ (n - 1) = 14 := by omega
      rw [hmin]
      simp only [List.map_replicate, neg_zero, max_self]
      rw [List.sum_replicate, smul_zero, zero_div]
      exact wilder_foldl_zero 14 _ (fun d hd => List.eq_of_mem_replicate hd)
    rw [calculate_rsi_pos _ _ (by decide), rsiVal_eq_of_data _ 14 hlen' _ hA]
    norm_num
  · intro l hlen hchain
    have hdpos : ∀ d ∈ deltasOf l, 0 < d := deltasOf_pos l hchain
    have hdlen : (deltasOf l).length = l.length - 1 := by
      unfold deltasOf
      rw [List.length_zipWith, List.length_tail]
      omega
    have hlosses : (((deltasOf l).take (14:ℤ).toNat).map (fun d => max (-d) 0)).sum = 0 := by
      apply List.sum_eq_zero
      intro x hx
      rcases List.mem_map.mp hx with ⟨d, hd, rfl⟩
      have hdp : 0 < d := hdpos d (List.mem_of_mem_take hd)
      rw [max_eq_right (by linarith : -d ≤ 0)]
    have hgains : 0 < (((deltasOf l).take (14:ℤ).toNat).map (fun d => max d 0)).sum := by
      apply List.sum_pos
      · intro x hx
        rcases List.mem_map.mp hx with ⟨d, hd, rfl⟩
        have hdp : 0 < d := hdpos d (List.mem_of_mem_take hd)
        rw [max_eq_left hdp.le]
        exact hdp
      · have hpos : 0 < (((deltasOf l).take (14:ℤ).toNat).map (fun d => max d 0)).length := by
          rw [List.length_map, List.length_take]
          have h14 : (14:ℤ).toNat = 14 := rfl
          rw [h14]
          omega
        exact List.ne_nil_of_length_pos hpos
    have hfold := wilder_foldl_pos 14 (by decide) ((deltasOf l).drop (14:ℤ).toNat)
        ((((deltasOf l).take (14:ℤ).toNat).map (fun d => max d 0)).sum / ((14:ℤ) : ℚ))
        (fun d hd => hdpos d (List.mem_of_mem_drop hd))
        (div_pos hgains (by norm_num))
    have hA : ((deltasOf l).drop (14:ℤ).toNat).foldl (wilderUpdate 14)
        ((((deltasOf l).take (14:ℤ).toNat).map (fun d => max d 0)).sum / ((14:ℤ) : ℚ),
         (((deltasOf l).take (14:ℤ).toNat).map (fun d => max (-d) 0)).sum / ((14:ℤ) : ℚ))
        = ((deltasOf l).drop (14:ℤ).toNat).foldl (wilderUpdate 14)
        ((((deltasOf l).take (14:ℤ).toNat).map (fun d => max d 0)).sum / ((14:ℤ) : ℚ), 0) := by
      rw [hlosses, zero_div]
    have h1 : (((deltasOf l).drop (14:ℤ).toNat).foldl (wilderUpdate 14)
        ((((deltasOf l).take (14:ℤ).toNat).map (fun d => max d 0)).sum / ((14:ℤ) : ℚ), 0)).1
        ≠ 0 := ne_of_gt hfold.1
    rw [calculate_rsi_pos _ _ (by decide), rsiVal_eq_of_data _ 14 (by omega) _ hA]
    rw [hfold.2]
    simp only [eq_self_iff_true, if_true]
    rw [if_neg h1]
    norm_num

/-- C6 witness: a short window, a constant window of length 15, and a
strictly increasing window of length 15. -/
theorem rsi_neutral_cases_witness :
    (([1, 2, 3] : List ℚ).length < 15 ∧ calculate_rsi [1, 2, 3] 14 = Except.ok 50)
    ∧ (15 ≤ 15 ∧ calculate_rsi (List.replicate 15 (7:ℚ)) 14 = Except.ok 50)
    ∧ (15 ≤ ([1,2,3,4,5,6,7,8,9,10,11,12,13,14,15] : List ℚ).length
      ∧ List.Chain' (· < ·) ([1,2,3,4,5,6,7,8,9,10,11,12,13,14,15] : List ℚ)
      ∧ calculate_rsi ([1,2,3,4,5,6,7,8,9,10,11,12,13,14,15] : List ℚ) 14 = Except.ok 100) :=
  ⟨⟨by decide, rsi_neutral_cases.1 [1, 2, 3] (by decide)⟩,
   ⟨by decide, rsi_neutral_cases.2.1 15 7 (by decide)⟩,
   ⟨by decide, by norm_num [List.chain'_cons],
    rsi_neutral_cases.2.2 [1,2,3,4,5,6,7,8,9,10,11,12,13,14,15] (by decide)
      (by norm_num [List.chain'_cons])⟩⟩

/-- C1: with a positive period and at least `period+1` prices,
`calculate_rsi` returns exactly the reference Wilder computation
written from the specification. -/
theorem rsi_wilder_reference (prices : List ℚ) (period : ℤ)
    (hp : 0 < period) (hlen : period + 1 ≤ (prices.length : ℤ)) :
    calculate_rsi prices period = Except.ok (rsiSpec prices period) := by
  have hp0 : (0:ℚ) < (period : ℚ) := by exact_mod_cast hp
  have hds : (prices.tail.zip prices).map (fun p => p.1 - p.2) = deltasOf prices :=
    (zipWith_eq_map_zip _ _ _).symm
  have hfun : (fun (acc : ℚ × ℚ) (d : ℚ) =>
      ((acc.1 * ((period : ℚ) - 1) + max d 0) / (period : ℚ),
       (acc.2 * ((period : ℚ) - 1) + max (-d) 0) / (period : ℚ))) = wilderUpdate period := rfl
  have hseed1 : 0 ≤ (((deltasOf prices).take period.toNat).map (fun d => max d 0)).sum
      / (period : ℚ) := by
    apply div_nonneg _ hp0.le
    apply List.sum_nonneg
    intro x hx
    rcases List.mem_map.mp hx with ⟨d, _, rfl⟩
    exact le_max_right d 0
  have hseed2 : 0 ≤ (((deltasOf prices).take period.toNat).map (fun d => max (-d) 0)).sum
      / (period : ℚ) := by
    apply div_nonneg _ hp0.le
    apply List.sum_nonneg
    intro x hx
    rcases List.mem_map.mp hx with ⟨d, _, rfl⟩
    exact le_max_right (-d) 0
  have hnn := wilder_foldl_nonneg period hp ((deltasOf prices).drop period.toNat)
      ((((deltasOf prices).take period.toNat).map (fun d => max d 0)).sum / (period : ℚ),
       (((deltasOf prices).take period.toNat).map (fun d => max (-d) 0)).sum / (period : ℚ))
      hseed1 hseed2
  rw [calculate_rsi_pos _ _ hp, rsiVal_eq_of_data _ _ (by omega) _ rfl]
  simp only [rsiSpec]
  rw [hds, hfun]
  set A := ((deltasOf prices).drop period.toNat).foldl (wilderUpdate period)
      ((((deltasOf prices).take period.toNat).map (fun d => max d 0)).sum / (period : ℚ),
       (((deltasOf prices).take period.toNat).map (fun d => max (-d) 0)).sum / (period : ℚ))
    with hAdef
  congr 1
  by_cases h2 : A.2 = 0 <;> by_cases h1 : A.1 = 0
  · norm_num [h1, h2]
  · have h1p : 0 < A.1 := lt_of_le_of_ne hnn.1 (Ne.symm h1)
    norm_num [h1, h2, h1p]
  · norm_num [h1, h2]
  · simp only [h1, h2, if_false, false_and, and_false]
    rw [ifClamp_eq_max_min]

/-- C1 witness: the specification's 15-price scenario with period 14. -/
theorem rsi_wilder_reference_witness :
    (0:ℤ) < 14
    ∧ (14:ℤ) + 1 ≤ (([44,44,45,43,44,45,44,46,45,47,46,46,47,46,48] : List ℚ).length : ℤ)
    ∧ calculate_rsi ([44,44,45,43,44,45,44,46,45,47,46,46,47,46,48] : List ℚ) 14
      = Except.ok (rsiSpec ([44,44,45,43,44,45,44,46,45,47,46,46,47,46,48] : List ℚ) 14) :=
  ⟨by decide, by decide,
   rsi_wilder_reference [44,44,45,43,44,45,44,46,45,47,46,46,47,46,48] 14
     (by decide) (by decide)⟩

/-- C2: for every price window, `determine_trend_and_decision` returns
exactly the trend/decision pair of the fixed rule table over
`sma(window,20)`, `sma(window,50)` and `rsi(window,14)`, and reports
that same RSI value. -/
theorem decide_matches_rule_table (prices : List ℚ) (s20 s50 r : ℚ)
    (h20 : calculate_sma prices 20 = Except.ok s20)
    (h50 : calculate_sma prices 50 = Except.ok s50)
    (hr : calculate_rsi prices 14 = Except.ok r) :
    ((determine_trend_and_decision prices).1, (determine_trend_and_decision prices).2.1)
      = ruleTable s20 s50 r
    ∧ (determine_trend_and_decision prices).2.2 = r := by
  rw [calculate_sma_pos _ _ (by decide)] at h20
  rw [calculate_sma_pos _ _ (by decide)] at h50
  rw [calculate_rsi_pos _ _ (by decide)] at hr
  have e20 : s20 = smaVal prices 20 := (Except.ok.inj h20).symm
  have e50 : s50 = smaVal prices 50 := (Except.ok.inj h50).symm
  have er : r = rsiVal prices 14 := (Except.ok.inj hr).symm
  subst e20 e50 er
  constructor
  · simp only [determine_trend_and_decision, ruleTable, gt_iff_lt]
    split_ifs <;> rfl
  · simp only [determine_trend_and_decision]
    split_ifs <;> rfl

/-- C2 witness: on the empty window both SMAs are `0`, the RSI is `50`,
and the decision is `(FLAT, HOLD)`. -/
theorem decide_matches_rule_table_witness :
    calculate_sma ([] : List ℚ) 20 = Except.ok 0
    ∧ calculate_sma ([] : List ℚ) 50 = Except.ok 0
    ∧ calculate_rsi ([] : List ℚ) 14 = Except.ok 50
    ∧ (((determine_trend_and_decision ([] : List ℚ)).1,
        (determine_trend_and_decision ([] : List ℚ)).2.1) = ruleTable 0 0 50
      ∧ (determine_trend_and_decision ([] : List ℚ)).2.2 = 50) :=
  ⟨rfl, rfl, rfl, decide_matches_rule_table [] 0 0 50 rfl rfl rfl⟩

/-- C3: for a window built by pushing `ps` into an empty rolling window
of positive capacity, `calculate_sma` returns the mean of exactly the
last `period` pushed values when enough are retained, the most recently
pushed value when the window is short but non-empty, and `0` when it is
empty. -/
theorem sma_window_contract (c : ℕ) (ps : List ℚ) (period : ℤ)
    (hc : 0 < c) (hp : 0 < period) :
    (period ≤ ((pushAll c ps).length : ℤ) → calculate_sma (pushAll c ps) period =
      Except.ok ((ps.drop (ps.length - period.toNat)).sum / (period : ℚ)))
    ∧ (0 < (pushAll c ps).length → ((pushAll c ps).length : ℤ) < period →
      calculate_sma (pushAll c ps) period = Except.ok (lastPrice ps))
    ∧ ((pushAll c ps).length = 0 → calculate_sma (pushAll c ps) period = Except.ok 0) := by
  rw [pushAll_eq_drop c hc ps]
  have hL := List.length_drop (ps.length - c) ps
  refine ⟨?_, ?_, ?_⟩
  · intro h
    have h0 : (ps.drop (ps.length - c)).length ≠ 0 := by omega
    rw [calculate_sma_pos _ _ hp]
    unfold smaVal
    rw [if_neg h0, if_neg (not_lt.mpr h)]
    have hdd : (ps.drop (ps.length - c)).drop ((ps.drop (ps.length - c)).length - period.toNat)
        = ps.drop (ps.length - period.toNat) := by
      rw [List.drop_drop]
      congr 1
      omega
    rw [hdd]
  · intro h1 h2
    rw [calculate_sma_pos _ _ hp]
    unfold smaVal
    rw [if_neg (by omega), if_pos h2]
    unfold lastPrice
    have hne : ps.drop (ps.length - c) ≠ [] := by
      intro hnil
      rw [hnil] at h1
      simp at h1
    conv_rhs => rw [← List.take_append_drop (ps.length - c) ps]
    rw [List.getLast?_append_of_ne_nil _ hne]
  · intro h0
    rw [calculate_sma_pos _ _ hp]
    unfold smaVal
    rw [if_pos h0]

/-- C3 witness: capacity 3, pushes `[1,2,3,4]`, period 2. -/
theorem sma_window_contract_witness :
    0 < 3 ∧ (0:ℤ) < 2
    ∧ (((2:ℤ) ≤ ((pushAll 3 [1,2,3,4]).length : ℤ) →
        calculate_sma (pushAll 3 [1,2,3,4]) 2 =
          Except.ok ((([1,2,3,4] : List ℚ).drop (([1,2,3,4] : List ℚ).length - (2:ℤ).toNat)).sum
            / ((2:ℤ) : ℚ)))
      ∧ (0 < (pushAll 3 [1,2,3,4]).length → ((pushAll 3 [1,2,3,4]).length : ℤ) < 2 →
        calculate_sma (pushAll 3 [1,2,3,4]) 2 = Except.ok (lastPrice [1,2,3,4]))
      ∧ ((pushAll 3 [1,2,3,4]).length = 0 →
        calculate_sma (pushAll 3 [1,2,3,4]) 2 = Except.ok 0)) :=
  ⟨by decide, by decide, sma_window_contract 3 [1,2,3,4] 2 (by decide) (by decide)⟩

/-- C5: a rolling window of positive capacity never exceeds its
capacity, always holds exactly the trailing pushed values in
chronological order, a push on a full window drops the oldest element,
and after `capacity+1` distinct pushes the first value is absent. -/
theorem rolling_window_fifo (c : ℕ) (ps : List ℚ) (a : ℚ) (hc : 0 < c) :
    (pushAll c ps).length ≤ c
    ∧ pushAll c ps = ps.drop (ps.length - c)
    ∧ (∀ (w : List ℚ) (x : ℚ), w.length = c → push c w x = w.drop 1 ++ [x])
    ∧ (ps.length = c + 1 → ps.Nodup → ps.head? = some a → a ∉ pushAll c ps) := by
  have hdrop := pushAll_eq_drop c hc ps
  refine ⟨?_, hdrop, ?_, ?_⟩
  · rw [hdrop, List.length_drop]
    omega
  · intro w x hw
    rw [push, if_pos hw, List.drop_one]
  · intro hlen hnd hhd
    rw [hdrop]
    have h1 : ps.length - c = 1 := by omega
    rw [h1]
    cases ps with
    | nil => simp at hhd
    | cons p t =>
      have hpa : p = a := by
        simp only [List.head?_cons, Option.some.injEq] at hhd
        exact hhd
      subst hpa
      exact (List.nodup_cons.mp hnd).1

/-- C5 witness: capacity 2, pushes `[5,6,7]`, oldest value 5. -/
theorem rolling_window_fifo_witness :
    0 < 2
    ∧ ((pushAll 2 [5,6,7]).length ≤ 2
      ∧ pushAll 2 [5,6,7] = ([5,6,7] : List ℚ).drop (([5,6,7] : List ℚ).length - 2)
      ∧ (∀ (w : List ℚ) (x : ℚ), w.length = 2 → push 2 w x = w.drop 1 ++ [x])
      ∧ (([5,6,7] : List ℚ).length = 2 + 1 → ([5,6,7] : List ℚ).Nodup →
        ([5,6,7] : List ℚ).head? = some 5 → (5:ℚ) ∉ pushAll 2 [5,6,7])) :=
  ⟨by decide, rolling_window_fifo 2 [5,6,7] 5 (by decide)⟩

/-- C7 (amended): a non-positive period makes each `calculate_sma` /
`calculate_rsi` call signal the precondition violation, and a positive
period makes every such call return a value, never an error. -/
theorem period_precondition (prices : List ℚ) (period : ℤ) :
    (period ≤ 0 → calculate_sma prices period = Except.error periodErrMsg
      ∧ calculate_rsi prices period = Except.error periodErrMsg)
    ∧ (0 < period → (∃ q, calculate_sma prices period = Except.ok q)
      ∧ ∃ q, calculate_rsi prices period = Except.ok q) := by
  constructor
  · intro h
    constructor <;> simp [calculate_sma, calculate_rsi, h]
  · intro h
    exact ⟨⟨smaVal prices period, calculate_sma_pos _ _ h⟩,
           ⟨rsiVal prices period, calculate_rsi_pos _ _ h⟩⟩

/-- C7 witness: period `-3` errors on call, period `3` returns values. -/
theorem period_precondition_witness :
    ((-3:ℤ) ≤ 0 ∧ (calculate_sma [(1:ℚ)] (-3) = Except.error periodErrMsg
      ∧ calculate_rsi [(1:ℚ)] (-3) = Except.error periodErrMsg))
    ∧ ((0:ℤ) < 3 ∧ ((∃ q, calculate_sma [(1:ℚ)] 3 = Except.ok q)
      ∧ ∃ q, calculate_rsi [(1:ℚ)] 3 = Except.ok q)) :=
  ⟨⟨by decide, (period_precondition [(1:ℚ)] (-3)).1 (by decide)⟩,
   ⟨by decide, (period_precondition [(1:ℚ)] 3).2 (by decide)⟩⟩

/-- C7 counterexample to the claim as stated: the violation is signaled
by the computation call itself (there is no construction-time check in
the code — each `calculate_sma` / `calculate_rsi` call re-checks and
raises). -/
theorem period_error_on_call :
    calculate_sma [(1:ℚ)] (-3) = Except.error periodErrMsg
    ∧ calculate_rsi [(1:ℚ)] (-3) = Except.error periodErrMsg :=
  ⟨rfl, rfl⟩

/-- C8 (amended): a symbol whose upper-cased form is untracked gets a
404 from `get_signal`, and a tick whose (exact) symbol is untracked is
silently dropped, leaving the whole store unchanged. -/
theorem untracked_symbol_handling (store : List (String × SymbolState))
    (sym : String) (t : Tick)
    (hkeys : ∀ e ∈ store, e.1 ∈ SYMBOLS_TO_TRACK)
    (hs : upper sym ∉ SYMBOLS_TO_TRACK)
    (ht : t.symbol ∉ SYMBOLS_TO_TRACK) :
    get_signal store sym = Except.error 404
    ∧ price_consumer_step store t = store := by
  have hnone1 : ∀ e ∈ store, e.1 ≠ upper sym := by
    intro e he heq
    apply hs
    rw [← heq]
    exact hkeys e he
  have hnone2 : ∀ e ∈ store, e.1 ≠ t.symbol := by
    intro e he heq
    apply ht
    rw [← heq]
    exact hkeys e he
  constructor
  · unfold get_signal lookupState
    rw [lookup_none _ _ hnone1]
  · unfold price_consumer_step lookupState
    rw [lookup_none _ _ hnone2]

/-- C8 witness: the symbol `qqq` is untracked in every respect. -/
theorem untracked_symbol_handling_witness :
    (∀ e ∈ initialState, e.1 ∈ SYMBOLS_TO_TRACK)
    ∧ upper ("qqq") ∉ SYMBOLS_TO_TRACK
    ∧ Tick.symbol ⟨("qqq"), 0, 1⟩ ∉ SYMBOLS_TO_TRACK
    ∧ (get_signal initialState ("qqq") = Except.error 404
      ∧ price_consumer_step initialState ⟨("qqq"), 0, 1⟩ = initialState) :=
  ⟨by decide, by decide, by decide,
   untracked_symbol_handling initialState ("qqq") ⟨("qqq"), 0, 1⟩
     (by decide) (by decide) (by decide)⟩

/-- C8 counterexample to the claim as stated: the lower-case symbol
`xyz` is not in the fixed tracked registry, yet `get_signal` does not
return a not-found indication for it — the query path upper-cases the
symbol before the lookup. -/
theorem get_signal_uppercases_counterexample :
    ("xyz") ∉ SYMBOLS_TO_TRACK
    ∧ get_signal initialState ("xyz")
      = Except.ok { symbol := ("XYZ"), trend := FLAT, rsi := 50, decision := HOLD } :=
  ⟨by decide, rfl⟩

/-- C9 (amended): a websocket message carries only the symbol and the
decision; the initial snapshot is sent immediately on connect, and the
sent decisions are exactly the destuttering of the sampled decision
sequence — a message is sent precisely when the sampled decision
differs from the last sent one. -/
theorem ws_stream_messages (sym : String) (d : String) (d0 : String)
    (samples : List String) :
    (wsPayload sym d).map Prod.fst = [("symbol"), ("decision")]
    ∧ (wsEmittedDecisions d0 samples).head? = some d0
    ∧ wsEmittedDecisions d0 samples = (d0 :: samples).destutter (· ≠ ·) := by
  refine ⟨rfl, rfl, ?_⟩
  rw [wsEmittedDecisions, List.destutter_cons']
  exact wsLoop_destutter samples d0

/-- C9 counterexample to the claim as stated: the websocket payload has
no `trend` and no `rsi` field — the subscriber is not delivered the
full Signal. -/
theorem ws_payload_lacks_signal_fields :
    ("trend") ∉ (wsPayload ("XYZ") HOLD).map Prod.fst
    ∧ ("rsi") ∉ (wsPayload ("XYZ") HOLD).map Prod.fst
    ∧ (wsPayload ("XYZ") HOLD).map Prod.fst = [("symbol"), ("decision")] :=
  ⟨by decide, by decide, rfl⟩

/-- C10: with fewer than 20 prices both SMAs fall back to the same
neutral value (the last price, or `0` on an empty window), so the
decision is always `(FLAT, HOLD)` regardless of the window contents. -/
theorem short_window_flat_hold (prices : List ℚ) (h : prices.length < 20) :
    (determine_trend_and_decision prices).1 = FLAT
    ∧ (determine_trend_and_decision prices).2.1 = HOLD
    ∧ smaVal prices 20 = smaVal prices 50
    ∧ smaVal prices 20 = (if prices.length = 0 then 0 else lastPrice prices) := by
  have h20 : smaVal prices 20 = (if prices.length = 0 then 0 else lastPrice prices) := by
    unfold smaVal
    by_cases h0 : prices.length = 0
    · rw [if_pos h0, if_pos h0]
    · rw [if_neg h0, if_neg h0, if_pos (by exact_mod_cast h)]
  have h50 : smaVal prices 50 = (if prices.length = 0 then 0 else lastPrice prices) := by
    unfold smaVal
    by_cases h0 : prices.length = 0
    · rw [if_pos h0, if_pos h0]
    · rw [if_neg h0, if_neg h0, if_pos (by exact_mod_cast (by omega : prices.length < 50))]
  have heq : smaVal prices 20 = smaVal prices 50 := by rw [h20, h50]
  refine ⟨?_, ?_, heq, h20⟩
  · simp only [determine_trend_and_decision, heq, lt_self_iff_false, if_false]
  · simp only [determine_trend_and_decision, heq, lt_self_iff_false, if_false]

/-- C10 witness: a one-element window. -/
theorem short_window_flat_hold_witness :
    ([(7:ℚ)] : List ℚ).length < 20
    ∧ ((determine_trend_and_decision [(7:ℚ)]).1 = FLAT
      ∧ (determine_trend_and_decision [(7:ℚ)]).2.1 = HOLD
      ∧ smaVal [(7:ℚ)] 20 = smaVal [(7:ℚ)] 50
      ∧ smaVal [(7:ℚ)] 20 = (if ([(7:ℚ)] : List ℚ).length = 0 then 0 else lastPrice [(7:ℚ)])) :=
  ⟨by decide, short_window_flat_hold [(7:ℚ)] (by decide)⟩

end Synaptic
